import Mathlib

/-!
# Verification of the operation-tracker synchronization layer

Shallow embedding of `src/github-api.js` (class `GitHubAPI`): the data
model, the merge algorithm (`mergeData` / `mergeArrays`), the sync engine
(`fetchData`, `commitData`, `handleConflict`, `processSyncQueue`,
`handleError`), the token obfuscation (`saveConfig` / `getToken`) and the
codec (`utf8ToBase64` / `base64ToUtf8`).

Modelling conventions:
* Timestamps (ISO strings compared through `new Date(...)` in the source)
  are modelled as `Nat` (epoch milliseconds); `new Date().toISOString()`
  is modelled as a `now : Nat` carried in the engine state and constant
  during one engine call.
* JavaScript objects flowing through the sync layer are only inspected at
  the fields the layer actually reads (`id`, `timestamp`); the remaining
  fields are collapsed into an opaque `payload : String`.
* Network effects are modelled by an outcome script in the state: the
  `n`-th PUT attempt observes `writeScript n`, a GET observes
  `readOutcome`.  `localStorage` is modelled by `localData`/`syncQueue`
  fields.  Recursion through the conflict handler is bounded by an
  explicit `fuel` argument (the source recurses without bound).
-/

namespace OpTracker

/-- A member of the `users` roster (`getInitialData`). -/
structure User where
  id : Nat
  name : String
  role : String
deriving DecidableEq

/-- A task; the sync layer only reads its `id` (`mergeArrays(remote.tasks, local.tasks, 'id')`),
the remaining fields are collapsed into `payload`. -/
structure TaskItem where
  id : Nat
  payload : String
deriving DecidableEq

/-- A change request; the sync layer only reads its `id`. -/
structure RequestItem where
  id : Nat
  payload : String
deriving DecidableEq

/-- A history entry; the merge reads `timestamp` (for sorting); claims
about deduplication refer to `id`. -/
structure HistEntry where
  id : Nat
  timestamp : Nat
  payload : String
deriving DecidableEq

/-- The root document (`data/db.json`). -/
structure DataDoc where
  version : String
  lastUpdated : Nat
  users : List User
  tasks : List TaskItem
  requests : List RequestItem
  history : List HistEntry
deriving DecidableEq

/-- The seed document (`getInitialData()`). -/
def getInitialData (now : Nat) : DataDoc :=
  { version := "1.0.0"
    lastUpdated := now
    users := [⟨1, "Liam", "Tech Lead"⟩, ⟨2, "Trân", "Sales Lead"⟩,
              ⟨3, "Taddy", "CEO"⟩, ⟨4, "Hiếu", "Software Lead"⟩,
              ⟨5, "Vỹ", "UX Lead"⟩, ⟨6, "Intern Thân", "Tech Intern"⟩,
              ⟨7, "Intern Trân", "Tech Intern"⟩]
    tasks := []
    requests := []
    history := [] }

/-- One step of a JavaScript `Map.set k v`: an existing key keeps its
insertion position and gets the new value, a new key is appended. -/
def mapInsert (m : List (Nat × α)) (k : Nat) (v : α) : List (Nat × α) :=
  if m.any (fun p => p.1 == k) then
    m.map (fun p => if p.1 == k then (k, v) else p)
  else
    m ++ [(k, v)]

/-- Model of `mergeArrays(remote, local, idField)`: build a `Map`, insert all remote
items then all local items (local wins per id), return `map.values()`. -/
def mergeArrays (idOf : α → Nat) (remote locals : List α) : List α :=
  let m1 := remote.foldl (fun m item => mapInsert m (idOf item) item) []
  let m2 := locals.foldl (fun m item => mapInsert m (idOf item) item) m1
  m2.map Prod.snd

/-- The descending-timestamp comparator of `mergeData`
(`(a, b) => new Date(b.timestamp) - new Date(a.timestamp)`). -/
def histDesc (a b : HistEntry) : Bool := b.timestamp ≤ a.timestamp

/-- Model of `mergeData(remote, local)`: users from remote, tasks/requests merged by
id with local winning, history = concatenation of both sides sorted by
timestamp descending (JavaScript `Array.prototype.sort` is stable, hence
the stable `mergeSort`). -/
def mergeData (remote locals : DataDoc) (now : Nat) : DataDoc :=
  { version := locals.version
    lastUpdated := now
    users := remote.users
    tasks := mergeArrays TaskItem.id remote.tasks locals.tasks
    requests := mergeArrays RequestItem.id remote.requests locals.requests
    history := (remote.history ++ locals.history).mergeSort histDesc }

/-- Outcome of one `PUT /contents/...` attempt (the remote side of
`commitData`): `ok` = 2xx with the new blob sha, `conflict` = 409,
`httpError` = any other non-ok status with the API error message. -/
inductive WriteOutcome where
  | ok (sha : String)
  | conflict
  | httpError (status : Nat) (msg : String)
deriving DecidableEq

/-- Outcome of one `GET /contents/...` (the remote side of `fetchData`). -/
inductive ReadOutcome where
  | ok (doc : DataDoc) (sha : String)
  | notFound
  | fail (status : Nat) (msg : String)
deriving DecidableEq

/-- An entry of the pending-operation queue (`addToSyncQueue`). -/
structure QueueItem where
  action : String
  data : DataDoc
  message : String
  timestamp : Nat
deriving DecidableEq

/-- Result of `commitData`: `{success:true}`, `{success:false, queued:true}`,
or `{success:false, conflict:true}` (the catch branch of `handleConflict`).
`outOfFuel` is a modelling artifact marking exhaustion of the recursion
bound; it corresponds to no JavaScript behaviour and no theorem relies on
it. -/
inductive CommitResult where
  | success
  | queued
  | conflictFailed
  | outOfFuel
deriving DecidableEq

/-- The mutable state of the `GitHubAPI` singleton, together with the
modelled environment (outcome script, current time). -/
structure SyncState where
  hasToken : Bool
  isConnected : Bool
  currentSHA : Option String
  localData : Option DataDoc
  syncQueue : List QueueItem
  writeScript : Nat → WriteOutcome
  readOutcome : ReadOutcome
  attempts : Nat
  now : Nat
  lastError : Option String
  connStatus : String

/-- Model of `saveLocalData(data)`. -/
def saveLocalData (s : SyncState) (d : DataDoc) : SyncState :=
  { s with localData := some d }

/-- Model of `loadLocalData()`: the stored snapshot, else `getInitialData()`. -/
def loadLocalData (s : SyncState) : DataDoc :=
  s.localData.getD (getInitialData s.now)

/-- Model of `addToSyncQueue(action, data, message)`: push to the tail of the queue. -/
def addToSyncQueue (s : SyncState) (action : String) (d : DataDoc) (m : String) : SyncState :=
  { s with syncQueue := s.syncQueue ++ [⟨action, d, m, s.now⟩] }

/-- Model of `String.prototype.includes`, used by `handleError` to sniff the error
kind out of the message text. -/
def strIncludes (hay needle : String) : Bool :=
  go needle.data hay.data
where
  go (n : List Char) : List Char → Bool
  | [] => n.isEmpty
  | c :: t => n.isPrefixOf (c :: t) || go n t

/-- The toast message chosen by `handleError`'s substring dispatch. -/
def errorToast (errorMessage : String) : String :=
  if strIncludes errorMessage "401" then
    "Invalid GitHub token. Please reconfigure in Settings."
  else if strIncludes errorMessage "404" then
    "Repository or file not found. Check Settings."
  else if strIncludes errorMessage "409" || errorMessage == "CONFLICT" then
    "Conflict detected. Someone else modified the data. Refreshing..."
  else if strIncludes errorMessage "rate limit" then
    "GitHub API rate limit exceeded. Try again later."
  else
    "GitHub sync failed: " ++ errorMessage ++ ". Changes saved locally."

/-- Model of `handleError(error)`: show a toast (recorded in `lastError`), clear
`isConnected` exactly in the 401 branch, and always end with
`updateConnectionStatus('error')`. -/
def handleError (s : SyncState) (errorMessage : String) : SyncState :=
  { s with
    lastError := some (errorToast errorMessage)
    isConnected := if strIncludes errorMessage "401" then false else s.isConnected
    connStatus := "error" }

/-- The message of the error thrown by `fetchData` on a non-ok response. -/
def fetchErrorMessage (status : Nat) (msg : String) : String :=
  "GitHub API error: " ++ toString status ++ " " ++ msg

/-- The message of the error thrown by `commitData` on a non-ok,
non-409 response. -/
def commitErrorMessage (status : Nat) (msg : String) : String :=
  "GitHub commit failed: " ++ toString status ++ " " ++ msg

/-- Model of `fetchData()`: without token or connection fall back to the local
snapshot; on 404 return the seed; on success record the sha and back the
document up locally; on any other error `handleError` and fall back to the
local snapshot. -/
def fetchData (s : SyncState) : DataDoc × SyncState :=
  if !s.hasToken || !s.isConnected then
    (loadLocalData s, s)
  else
    match s.readOutcome with
    | .notFound => (getInitialData s.now, s)
    | .ok doc sha =>
        let s1 := { s with currentSHA := some sha }
        (doc, saveLocalData s1 doc)
    | .fail status msg =>
        let s1 := handleError s (fetchErrorMessage status msg)
        (loadLocalData s1, s1)

/-- Model of `commitData(data, commitMessage)`.  Without token/connection: enqueue
and persist locally.  Otherwise stamp `lastUpdated`, attempt the PUT:
on success record the sha and persist locally; on 409 run the conflict
handler (`handleConflict` inlined: `fetchData`, `mergeData`, then commit
the merged document with an amended message — the source recursion is
bounded here by `fuel`); on any other error `handleError`, enqueue the
stamped document and persist it locally. -/
def commitData : Nat → DataDoc → String → SyncState → CommitResult × SyncState
  | 0, _, _, s => (.outOfFuel, s)
  | fuel + 1, data, commitMessage, s =>
    if !s.hasToken || !s.isConnected then
      let s1 := addToSyncQueue s "update" data commitMessage
      (.queued, saveLocalData s1 data)
    else
      let stamped : DataDoc := { data with lastUpdated := s.now }
      let s0 := { s with attempts := s.attempts + 1 }
      match s.writeScript s.attempts with
      | .ok sha =>
          let s1 := { s0 with currentSHA := some sha }
          (.success, saveLocalData s1 stamped)
      | .conflict =>
          let (remoteData, s1) := fetchData s0
          let merged := mergeData remoteData stamped s1.now
          commitData fuel merged (commitMessage ++ " (merged)") s1
      | .httpError status msg =>
          let s1 := handleError s0 (commitErrorMessage status msg)
          let s2 := addToSyncQueue s1 "update" stamped commitMessage
          (.queued, saveLocalData s2 stamped)

/-- Model of `handleConflict(localData, commitMessage)`: fetch the remote document,
merge, and commit the merged document with ` (merged)` appended to the
message.  (Its `catch` branch returns `{success:false, conflict:true}`;
in this model `fetchData` and `mergeData` are total, so the branch is
unreachable.)  `commitData`'s conflict arm is exactly this body. -/
def handleConflict (fuel : Nat) (localData : DataDoc) (commitMessage : String)
    (s : SyncState) : CommitResult × SyncState :=
  let (remoteData, s1) := fetchData s
  let merged := mergeData remoteData localData s1.now
  commitData fuel merged (commitMessage ++ " (merged)") s1

/-- The `while` loop of `processSyncQueue`: commit the head of the queue;
on success `shift()` it off and continue, on failure stop (the loop is
bounded here by `loopFuel`; each successful step shortens the queue, so
any `loopFuel ≥` initial queue length is exact). -/
def processQueueLoop (commitFuel : Nat) :
    Nat → SyncState → Nat → Nat → Nat × Nat × SyncState
  | 0, s, processed, failed => (processed, failed, s)
  | loopFuel + 1, s, processed, failed =>
    match s.syncQueue with
    | [] => (processed, failed, s)
    | item :: _ =>
      let (r, s1) := commitData commitFuel item.data item.message s
      if r = .success then
        processQueueLoop commitFuel loopFuel
          { s1 with syncQueue := s1.syncQueue.drop 1 } (processed + 1) failed
      else
        (processed, failed + 1, s1)

/-- Model of `processSyncQueue()`: returns `{processed, failed}` and the final
state (whose `syncQueue.length` is the reported `remaining`). -/
def processSyncQueue (commitFuel loopFuel : Nat) (s : SyncState) :
    Nat × Nat × SyncState :=
  if s.syncQueue.isEmpty then (0, 0, s)
  else processQueueLoop commitFuel loopFuel s 0 0

/-- The base64 alphabet used by `btoa`/`atob`. -/
def b64Alphabet : List Char :=
  "ABCDEFGHIJKLMNOPQRSTUVWXYZabcdefghijklmnopqrstuvwxyz0123456789+/".data

/-- Sextet value → base64 character. -/
def encSextet (n : Nat) : Char := b64Alphabet.getD n 'A'

/-- Base64 character → sextet value (`none` when not in the alphabet). -/
def decSextet (c : Char) : Option Nat :=
  let i := b64Alphabet.findIdx (fun x => x == c)
  if i < 64 then some i else none

/-- Model of `btoa` on a byte sequence: 3 bytes → 4 characters, with `=` padding
for a 1- or 2-byte tail. -/
def b64Encode : List Nat → List Char
  | [] => []
  | [a] => [encSextet (a / 4), encSextet (a % 4 * 16), '=', '=']
  | [a, b] => [encSextet (a / 4), encSextet (a % 4 * 16 + b / 16),
               encSextet (b % 16 * 4), '=']
  | a :: b :: c :: rest =>
      encSextet (a / 4) :: encSextet (a % 4 * 16 + b / 16) ::
      encSextet (b % 16 * 4 + c / 64) :: encSextet (c % 64) :: b64Encode rest

/-- Model of `atob` on padded base64 text: 4 characters → 3 bytes, a `==`/`=` tail
→ 1/2 bytes (unused trailing bits are discarded, as in forgiving-base64);
anything else is malformed and `atob` throws (`none`). -/
def b64Decode : List Char → Option (List Nat)
  | [] => some []
  | c1 :: c2 :: c3 :: c4 :: rest =>
      match decSextet c1, decSextet c2 with
      | some s1, some s2 =>
        if c3 = '=' ∧ c4 = '=' ∧ rest = [] then
          some [s1 * 4 + s2 / 16]
        else if c4 = '=' ∧ rest = [] then
          match decSextet c3 with
          | some s3 => some [s1 * 4 + s2 / 16, s2 % 16 * 16 + s3 / 4]
          | none => none
        else
          match decSextet c3, decSextet c4 with
          | some s3, some s4 =>
              (b64Decode rest).map (fun tail =>
                (s1 * 4 + s2 / 16) :: (s2 % 16 * 16 + s3 / 4) ::
                (s3 % 4 * 64 + s4) :: tail)
          | _, _ => none
      | _, _ => none
  | _ => none

/-- Model of `TextEncoder`: UTF-8 encoding of one Unicode scalar value. -/
def utf8EncodeCp (c : Nat) : List Nat :=
  if c < 0x80 then [c]
  else if c < 0x800 then [0xC0 + c / 64, 0x80 + c % 64]
  else if c < 0x10000 then [0xE0 + c / 4096, 0x80 + c / 64 % 64, 0x80 + c % 64]
  else [0xF0 + c / 262144, 0x80 + c / 4096 % 64, 0x80 + c / 64 % 64, 0x80 + c % 64]

/-- Model of `TextDecoder`, single scalar (fatal view): strict UTF-8 decoding of
one scalar value from the head of the byte sequence, rejecting truncated
sequences, bad continuation bytes, overlong forms, surrogates and values
above `0x10FFFF`; returns the scalar and the remaining bytes.  (The source
constructs the default, non-fatal `TextDecoder`, which substitutes U+FFFD
on such input; the claims only exercise well-formed input, where both
agree.) -/
def utf8Step (l : List Nat) : Option (Nat × List Nat) :=
  match l with
  | [] => none
  | b1 :: rest =>
    if b1 < 0x80 then some (b1, rest)
    else if b1 < 0xE0 then
      match rest with
      | b2 :: rest2 =>
        let c := (b1 - 0xC0) * 64 + (b2 - 0x80)
        if 0xC0 ≤ b1 ∧ 0x80 ≤ b2 ∧ b2 < 0xC0 ∧ 0x80 ≤ c then some (c, rest2)
        else none
      | _ => none
    else if b1 < 0xF0 then
      match rest with
      | b2 :: b3 :: rest3 =>
        let c := (b1 - 0xE0) * 4096 + (b2 - 0x80) * 64 + (b3 - 0x80)
        if 0x80 ≤ b2 ∧ b2 < 0xC0 ∧ 0x80 ≤ b3 ∧ b3 < 0xC0 ∧ 0x800 ≤ c ∧
            ¬(0xD800 ≤ c ∧ c ≤ 0xDFFF) then some (c, rest3)
        else none
      | _ => none
    else if b1 < 0xF8 then
      match rest with
      | b2 :: b3 :: b4 :: rest4 =>
        let c := (b1 - 0xF0) * 262144 + (b2 - 0x80) * 4096 +
                 (b3 - 0x80) * 64 + (b4 - 0x80)
        if 0x80 ≤ b2 ∧ b2 < 0xC0 ∧ 0x80 ≤ b3 ∧ b3 < 0xC0 ∧ 0x80 ≤ b4 ∧
            b4 < 0xC0 ∧ 0x10000 ≤ c ∧ c < 0x110000 then some (c, rest4)
        else none
      | _ => none
    else none

/-- Iterate `utf8Step` over the whole byte sequence.  Each step consumes
at least one byte, so a fuel equal to the byte count is exact; the
`0, _ :: _` arm is unreachable from `utf8DecodeCps`. -/
def utf8DecodeLoop : Nat → List Nat → Option (List Nat)
  | _, [] => some []
  | 0, _ :: _ => none
  | fuel + 1, b1 :: rest =>
    match utf8Step (b1 :: rest) with
    | some (c, rest2) => (utf8DecodeLoop fuel rest2).map (c :: ·)
    | none => none

/-- Model of `TextDecoder.decode` (fatal view): all scalar values of the byte
sequence. -/
def utf8DecodeCps (l : List Nat) : Option (List Nat) :=
  utf8DecodeLoop l.length l

/-- Model of `TextEncoder.encode` over a character sequence. -/
def utf8EncodeChars (s : List Char) : List Nat :=
  s.flatMap (fun c => utf8EncodeCp c.toNat)

/-- Model of `utf8ToBase64(str)`: `TextEncoder` bytes, then `btoa`. -/
def utf8ToBase64 (s : String) : List Char :=
  b64Encode (utf8EncodeChars s.data)

/-- Model of `base64ToUtf8(base64)`: `atob` bytes, then `TextDecoder`. -/
def base64ToUtf8 (b : List Char) : Option String :=
  (b64Decode b).bind fun bytes =>
    (utf8DecodeCps bytes).map fun cps => String.mk (cps.map Char.ofNat)

/-- The token-storing step of `saveConfig(config)`: a truthy (non-empty)
token is stored `btoa`-obfuscated; `btoa` throws on a code unit ≥ 256
(`none`: nothing is stored). -/
def saveConfigToken (token : List Char) : Option (List Char) :=
  if token.isEmpty then some token
  else if token.all (fun c => c.toNat < 256) then
    some (b64Encode (token.map Char.toNat))
  else none

/-- Model of `getToken()`: `null` for a falsy stored token; a stored token starting
with `ghp_` or `github_pat_` is treated as already decoded; otherwise
`atob` it, falling back to the raw stored value if `atob` throws. -/
def getToken (stored : List Char) : Option (List Char) :=
  if stored.isEmpty then none
  else if "ghp_".data.isPrefixOf stored || "github_pat_".data.isPrefixOf stored then
    some stored
  else
    match b64Decode stored with
    | some bytes => some (bytes.map Char.ofNat)
    | none => some stored

/-- Association-list lookup used to reason about the JavaScript `Map`
modelled by `mapInsert`. -/
def alookup (k : Nat) : List (Nat × α) → Option α
  | [] => none
  | (k', v) :: t => if k' = k then some v else alookup k t

/-- The last element of `items` whose id is `k` (`Map.set`: last write
wins). -/
def lastWithId (idOf : α → Nat) (k : Nat) (items : List α) : Option α :=
  items.foldl (fun acc x => if idOf x = k then some x else acc) none

/-! ## History merge (claims C1, C5) -/

theorem histDesc_trans (a b c : HistEntry) :
    histDesc a b → histDesc b c → histDesc a c := by
  simp only [histDesc, decide_eq_true_eq]
  omega

theorem histDesc_total (a b : HistEntry) : histDesc a b || histDesc b a := by
  simp only [histDesc, Bool.or_eq_true, decide_eq_true_eq]
  omega

theorem mergeData_history_perm (remote locals : DataDoc) (now : Nat) :
    (mergeData remote locals now).history.Perm
      (remote.history ++ locals.history) :=
  List.mergeSort_perm (remote.history ++ locals.history) histDesc

/-- C1, amended: the merged history is the concatenation of the remote and
local histories sorted (stably) by timestamp descending — there is no
deduplication by entry id, so each id occurs as often as it occurs in the
two inputs combined. -/
theorem C1_merge_history_concat_sorted (remote locals : DataDoc) (now : Nat) :
    (mergeData remote locals now).history.Perm
      (remote.history ++ locals.history) ∧
    (mergeData remote locals now).history.Pairwise
      (fun a b => b.timestamp ≤ a.timestamp) ∧
    ∀ k, (mergeData remote locals now).history.countP (fun e => e.id == k) =
      remote.history.countP (fun e => e.id == k) +
      locals.history.countP (fun e => e.id == k) := by
  refine ⟨mergeData_history_perm remote locals now, ?_, ?_⟩
  · have h := @List.sorted_mergeSort _ histDesc histDesc_trans histDesc_total
      (remote.history ++ locals.history)
    exact h.imp (by simp only [histDesc, decide_eq_true_eq]; exact id)
  · intro k
    rw [(mergeData_history_perm remote locals now).countP_eq, List.countP_append]

/-- C1, counterexample to the claim as stated: a history entry whose id
occurs on both sides appears twice, not once, in the merged history. -/
theorem C1_counterexample :
    (mergeData ⟨"1.0.0", 0, [], [], [], [⟨0, 5, "edit"⟩]⟩
        ⟨"1.0.0", 0, [], [], [], [⟨0, 5, "edit"⟩]⟩ 9).history.countP
      (fun h => h.id == 0) = 2 := by
  rw [(mergeData_history_perm _ _ _).countP_eq]
  decide

/-- C5: no history entry id from either side is dropped by the merge. -/
theorem C5_merge_history_never_shrinks (remote locals : DataDoc) (now : Nat)
    (k : Nat)
    (h : k ∈ remote.history.map HistEntry.id ∨
         k ∈ locals.history.map HistEntry.id) :
    k ∈ (mergeData remote locals now).history.map HistEntry.id := by
  have hp := (mergeData_history_perm remote locals now).map HistEntry.id
  rw [hp.mem_iff, List.map_append, List.mem_append]
  exact h

/-- Witness for C5 at a concrete input. -/
theorem C5_witness :
    let remote : DataDoc := ⟨"1.0.0", 0, [], [], [], [⟨0, 5, "r"⟩]⟩
    let locals : DataDoc := ⟨"1.0.0", 0, [], [], [], [⟨1, 7, "l"⟩]⟩
    1 ∈ (mergeData remote locals 9).history.map HistEntry.id :=
  C5_merge_history_never_shrinks _ _ 9 1 (by decide)

/-! ## `Map` semantics of `mergeArrays` (claim C6)

Lemmas about `mapInsert` (one `Map.set`) and its iteration: lookup is
last-write-wins, keys are unique, every stored pair is `(idOf v, v)`. -/

theorem alookup_none_of_forall (m : List (Nat × α)) (k : Nat)
    (h : ∀ p ∈ m, p.1 ≠ k) : alookup k m = none := by
  induction m with
  | nil => rfl
  | cons p t ih =>
    simp only [alookup, h p (List.mem_cons_self p t), if_false]
    exact ih fun q hq => h q (List.mem_cons_of_mem p hq)

theorem alookup_append (m l : List (Nat × α)) (k : Nat) :
    alookup k (m ++ l) =
      match alookup k m with
      | some v => some v
      | none => alookup k l := by
  induction m with
  | nil => rfl
  | cons p t ih =>
    simp only [List.cons_append, alookup]
    by_cases hp : p.1 = k
    · simp [hp]
    · simp only [hp, if_false]
      exact ih

theorem alookup_map_replace_self (m : List (Nat × α)) (k : Nat) (v : α)
    (hmem : ∃ p ∈ m, p.1 = k) :
    alookup k (m.map (fun p => if p.1 == k then (k, v) else p)) = some v := by
  induction m with
  | nil => simp at hmem
  | cons p t ih =>
    simp only [List.map_cons]
    by_cases hp : p.1 = k
    · rw [if_pos (show (p.1 == k) = true by simpa using hp)]
      simp [alookup]
    · rw [if_neg (show ¬(p.1 == k) = true by simpa using hp)]
      simp only [alookup, hp, if_false]
      obtain ⟨q, hq, hqk⟩ := hmem
      rcases List.mem_cons.mp hq with h | h
      · exact absurd (h ▸ hqk) hp
      · exact ih ⟨q, h, hqk⟩

theorem alookup_map_replace_other (m : List (Nat × α)) (k k' : Nat) (v : α)
    (hne : k' ≠ k) :
    alookup k' (m.map (fun p => if p.1 == k then (k, v) else p)) =
      alookup k' m := by
  induction m with
  | nil => rfl
  | cons p t ih =>
    simp only [List.map_cons]
    by_cases hp : p.1 = k
    · rw [if_pos (show (p.1 == k) = true by simpa using hp)]
      simp only [alookup]
      rw [if_neg (show ¬k = k' from fun h => hne h.symm),
        if_neg (show ¬p.1 = k' from fun h => hne (h.symm.trans hp)), ih]
    · rw [if_neg (show ¬(p.1 == k) = true by simpa using hp)]
      simp only [alookup, ih]

theorem alookup_mapInsert (m : List (Nat × α)) (k k' : Nat) (v : α) :
    alookup k' (mapInsert m k v) =
      if k' = k then some v else alookup k' m := by
  unfold mapInsert
  split
  case isTrue hmem =>
    by_cases hk' : k' = k
    · subst hk'
      rw [if_pos rfl]
      refine alookup_map_replace_self m k' v ?_
      obtain ⟨p, hp, hpk⟩ := List.any_eq_true.mp hmem
      exact ⟨p, hp, by simpa using hpk⟩
    · rw [if_neg hk']
      exact alookup_map_replace_other m k k' v hk'
  case isFalse hmem =>
    rw [alookup_append]
    have hnone : ∀ p ∈ m, p.1 ≠ k := by
      intro p hp hpk
      exact hmem (List.any_eq_true.mpr ⟨p, hp, by simpa using hpk⟩)
    by_cases hk' : k' = k
    · subst hk'
      rw [alookup_none_of_forall m k' hnone]
      simp [alookup]
    · rw [if_neg hk']
      cases h : alookup k' m with
      | some w => rfl
      | none => simp [alookup, Ne.symm hk', hk']

theorem keys_mapInsert_superset (m : List (Nat × α)) (k k' : Nat) (v : α)
    (h : k' ∈ m.map Prod.fst) : k' ∈ (mapInsert m k v).map Prod.fst := by
  unfold mapInsert
  split
  · rw [List.map_map]
    obtain ⟨p, hp, hpk⟩ := List.mem_map.mp h
    refine List.mem_map.mpr ⟨p, hp, ?_⟩
    simp only [Function.comp_apply]
    by_cases hc : p.1 = k
    · rw [if_pos (show (p.1 == k) = true by simpa using hc)]
      exact hc.symm.trans hpk
    · rw [if_neg (show ¬(p.1 == k) = true by simpa using hc)]
      exact hpk
  · simp only [List.map_append, List.mem_append]
    exact Or.inl h

theorem key_mem_mapInsert (m : List (Nat × α)) (k : Nat) (v : α) :
    k ∈ (mapInsert m k v).map Prod.fst := by
  unfold mapInsert
  split
  case isTrue hmem =>
    obtain ⟨p, hp, hpk⟩ := List.any_eq_true.mp hmem
    rw [List.map_map]
    refine List.mem_map.mpr ⟨p, hp, ?_⟩
    simp only [beq_iff_eq] at hpk
    simp [Function.comp, hpk]
  case isFalse =>
    simp

theorem keys_mapInsert_nodup (m : List (Nat × α)) (k : Nat) (v : α)
    (h : (m.map Prod.fst).Nodup) : ((mapInsert m k v).map Prod.fst).Nodup := by
  unfold mapInsert
  split
  case isTrue hmem =>
    rw [List.map_map]
    have : m.map (Prod.fst ∘ fun p => if p.1 == k then (k, v) else p) =
        m.map Prod.fst := by
      refine List.map_congr_left ?_
      intro p _
      by_cases hc : p.1 = k
      · simp [Function.comp, hc]
      · simp [Function.comp, hc]
    rw [this]
    exact h
  case isFalse hmem =>
    rw [List.map_append]
    simp only [List.map_cons, List.map_nil]
    rw [List.nodup_append]
    refine ⟨h, List.nodup_singleton k, ?_⟩
    intro a ha hb
    simp only [List.mem_singleton] at hb
    subst hb
    obtain ⟨p, hp, hpk⟩ := List.mem_map.mp ha
    exact hmem (List.any_eq_true.mpr ⟨p, hp, by simpa using hpk⟩)

theorem mapInsert_pair_inv (m : List (Nat × α)) (k : Nat) (v : α)
    (p : Nat × α) (hp : p ∈ mapInsert m k v) : p ∈ m ∨ p = (k, v) := by
  unfold mapInsert at hp
  split at hp
  · obtain ⟨q, hq, hqp⟩ := List.mem_map.mp hp
    by_cases hc : q.1 = k
    · simp only [hc, beq_self_eq_true, if_true] at hqp
      exact Or.inr hqp.symm
    · simp only [beq_iff_eq, hc, if_false] at hqp
      exact Or.inl (hqp ▸ hq)
  · rcases List.mem_append.mp hp with h | h
    · exact Or.inl h
    · simp only [List.mem_singleton] at h
      exact Or.inr h

theorem alookup_mem_values (m : List (Nat × α)) (k : Nat) (v : α)
    (h : alookup k m = some v) : v ∈ m.map Prod.snd := by
  induction m with
  | nil => simp [alookup] at h
  | cons p t ih =>
    simp only [alookup] at h
    split at h
    · simp only [Option.some.injEq] at h
      simp [← h]
    · simpa using Or.inr (ih h)

theorem alookup_of_pair_mem (m : List (Nat × α)) (k : Nat) (v : α)
    (hnd : (m.map Prod.fst).Nodup) (h : (k, v) ∈ m) : alookup k m = some v := by
  induction m with
  | nil => simp at h
  | cons p t ih =>
    simp only [List.map_cons, List.nodup_cons] at hnd
    rcases List.mem_cons.mp h with h | h
    · simp [alookup, ← h]
    · have hk : p.1 ≠ k := by
        intro hpk
        exact hnd.1 (List.mem_map.mpr ⟨(k, v), h, by simp [hpk]⟩)
      simp only [alookup, hk, if_false]
      exact ih hnd.2 h

theorem foldl_lastWith_acc (idOf : α → Nat) (k : Nat) (t : List α)
    (acc : Option α) :
    t.foldl (fun a x => if idOf x = k then some x else a) acc =
      match lastWithId idOf k t with
      | some v => some v
      | none => acc := by
  induction t generalizing acc with
  | nil => rfl
  | cons x t ih =>
    show t.foldl _ (if idOf x = k then some x else acc) = _
    rw [ih]
    show _ = match t.foldl _ (if idOf x = k then some x else none) with
      | some v => some v
      | none => acc
    rw [ih (if idOf x = k then some x else none)]
    cases lastWithId idOf k t with
    | some v => rfl
    | none =>
      by_cases hx : idOf x = k
      · simp [hx]
      · simp [hx]

theorem lastWithId_cons (idOf : α → Nat) (k : Nat) (x : α) (t : List α) :
    lastWithId idOf k (x :: t) =
      match lastWithId idOf k t with
      | some v => some v
      | none => if idOf x = k then some x else none := by
  show t.foldl _ (if idOf x = k then some x else none) = _
  exact foldl_lastWith_acc idOf k t _

theorem lastWithId_eq_none (idOf : α → Nat) (k : Nat) (t : List α)
    (h : ∀ z ∈ t, idOf z ≠ k) : lastWithId idOf k t = none := by
  induction t with
  | nil => rfl
  | cons x t ih =>
    rw [lastWithId_cons, ih fun z hz => h z (List.mem_cons_of_mem x hz)]
    simp [h x (List.mem_cons_self x t)]

theorem lastWithId_of_nodup (idOf : α → Nat) (items : List α) (x : α)
    (hnd : (items.map idOf).Nodup) (hx : x ∈ items) :
    lastWithId idOf (idOf x) items = some x := by
  induction items with
  | nil => simp at hx
  | cons y t ih =>
    simp only [List.map_cons, List.nodup_cons] at hnd
    rw [lastWithId_cons]
    rcases List.mem_cons.mp hx with h | h
    · subst h
      have : lastWithId idOf (idOf x) t = none := by
        refine lastWithId_eq_none idOf _ t fun z hz hzk => ?_
        exact hnd.1 (hzk ▸ List.mem_map.mpr ⟨z, hz, rfl⟩)
      rw [this]
      simp
    · rw [ih hnd.2 h]

/-- The `Map` built by iterated `mapInsert` from a nodup-keys start keeps
its keys nodup. -/
theorem nodupKeys_foldl (idOf : α → Nat) (items : List α)
    (m : List (Nat × α)) (h : (m.map Prod.fst).Nodup) :
    (((items.foldl (fun m item => mapInsert m (idOf item) item) m)).map
      Prod.fst).Nodup := by
  induction items generalizing m with
  | nil => exact h
  | cons x t ih => exact ih _ (keys_mapInsert_nodup m (idOf x) x h)

/-- Lookup after iterated insertion: the last inserted item with the key
wins, else the start map's binding survives. -/
theorem alookup_foldl (idOf : α → Nat) (items : List α)
    (m : List (Nat × α)) (k : Nat) :
    alookup k (items.foldl (fun m item => mapInsert m (idOf item) item) m) =
      match lastWithId idOf k items with
      | some v => some v
      | none => alookup k m := by
  induction items generalizing m with
  | nil => rfl
  | cons x t ih =>
    show alookup k (t.foldl _ (mapInsert m (idOf x) x)) = _
    rw [ih, lastWithId_cons]
    cases lastWithId idOf k t with
    | some v => rfl
    | none =>
      rw [alookup_mapInsert]
      by_cases hx : idOf x = k
      · simp [hx]
      · simp [hx, Ne.symm hx]

theorem keys_foldl_superset (idOf : α → Nat) (items : List α)
    (m : List (Nat × α)) (k : Nat) (h : k ∈ m.map Prod.fst) :
    k ∈ ((items.foldl (fun m item => mapInsert m (idOf item) item) m)).map
      Prod.fst := by
  induction items generalizing m with
  | nil => exact h
  | cons x t ih => exact ih _ (keys_mapInsert_superset m (idOf x) k x h)

theorem key_mem_foldl (idOf : α → Nat) (items : List α)
    (m : List (Nat × α)) (x : α) (hx : x ∈ items) :
    idOf x ∈ ((items.foldl (fun m item => mapInsert m (idOf item) item) m)).map
      Prod.fst := by
  induction items generalizing m with
  | nil => simp at hx
  | cons y t ih =>
    rcases List.mem_cons.mp hx with h | h
    · subst h
      exact keys_foldl_superset idOf t _ (idOf x)
        (key_mem_mapInsert m (idOf x) x)
    · exact ih _ h

/-- Every pair stored by the iteration is of the form `(idOf v, v)`. -/
theorem pair_inv_foldl (idOf : α → Nat) (items : List α)
    (m : List (Nat × α)) (hm : ∀ p ∈ m, p.1 = idOf p.2) :
    ∀ p ∈ items.foldl (fun m item => mapInsert m (idOf item) item) m,
      p.1 = idOf p.2 := by
  induction items generalizing m with
  | nil => exact hm
  | cons x t ih =>
    refine ih _ fun p hp => ?_
    rcases mapInsert_pair_inv m (idOf x) x p hp with h | h
    · exact hm p h
    · rw [h]

/-! Properties of `mergeArrays` assembled from the `Map` lemmas. -/

theorem mergeArrays_local_mem (idOf : α → Nat) (remote locals : List α)
    (hnd : (locals.map idOf).Nodup) (l : α) (hl : l ∈ locals) :
    l ∈ mergeArrays idOf remote locals := by
  unfold mergeArrays
  refine alookup_mem_values _ (idOf l) l ?_
  rw [alookup_foldl, lastWithId_of_nodup idOf locals l hnd hl]

theorem mergeArrays_remote_ids (idOf : α → Nat) (remote locals : List α)
    (k : Nat) (hk : k ∈ remote.map idOf) :
    k ∈ (mergeArrays idOf remote locals).map idOf := by
  unfold mergeArrays
  obtain ⟨x, hx, hxk⟩ := List.mem_map.mp hk
  have hkeys := keys_foldl_superset idOf locals
    (remote.foldl (fun m item => mapInsert m (idOf item) item) []) (idOf x)
    (key_mem_foldl idOf remote [] x hx)
  have hinv := pair_inv_foldl idOf locals
    (remote.foldl (fun m item => mapInsert m (idOf item) item) [])
    (pair_inv_foldl idOf remote [] (by simp))
  obtain ⟨p, hp, hpk⟩ := List.mem_map.mp hkeys
  refine hxk ▸ ?_
  rw [List.map_map]
  exact List.mem_map.mpr ⟨p, hp, by
    simp only [Function.comp_apply]
    rw [← hinv p hp, hpk]⟩

theorem mergeArrays_local_wins (idOf : α → Nat) (remote locals : List α)
    (hnd : (locals.map idOf).Nodup) (x : α)
    (hx : x ∈ mergeArrays idOf remote locals) (l : α) (hl : l ∈ locals)
    (hid : idOf x = idOf l) : x = l := by
  unfold mergeArrays at hx
  obtain ⟨p, hp, hps⟩ := List.mem_map.mp hx
  have hinv := pair_inv_foldl idOf locals
    (remote.foldl (fun m item => mapInsert m (idOf item) item) [])
    (pair_inv_foldl idOf remote [] (by simp)) p hp
  have hnodup := nodupKeys_foldl idOf locals
    (remote.foldl (fun m item => mapInsert m (idOf item) item) [])
    (nodupKeys_foldl idOf remote [] (by simp))
  have hpx : p = (idOf x, x) := by
    have hpeta : p = (p.1, p.2) := rfl
    rw [hpeta, hinv, hps]
  have hx' : alookup (idOf x)
      (locals.foldl (fun m item => mapInsert m (idOf item) item)
        (remote.foldl (fun m item => mapInsert m (idOf item) item) [])) =
      some x :=
    alookup_of_pair_mem _ (idOf x) x hnodup (hpx ▸ hp)
  have hl' : alookup (idOf l)
      (locals.foldl (fun m item => mapInsert m (idOf item) item)
        (remote.foldl (fun m item => mapInsert m (idOf item) item) [])) =
      some l := by
    rw [alookup_foldl, lastWithId_of_nodup idOf locals l hnd hl]
  rw [hid] at hx'
  exact Option.some.inj (hx'.symm.trans hl')

/-- C6: the merged document takes `users` from the remote side verbatim,
and merges `tasks`/`requests` by id: every local element survives, any
merged element sharing an id with a local element is that local element
(local wins per id), and every remote id is preserved. -/
theorem C6_merge_by_id (remote locals : DataDoc) (now : Nat)
    (hlt : (locals.tasks.map TaskItem.id).Nodup)
    (hrt : (remote.tasks.map TaskItem.id).Nodup)
    (hlr : (locals.requests.map RequestItem.id).Nodup)
    (hrr : (remote.requests.map RequestItem.id).Nodup) :
    (mergeData remote locals now).users = remote.users ∧
    (∀ t ∈ locals.tasks, t ∈ (mergeData remote locals now).tasks) ∧
    (∀ x ∈ (mergeData remote locals now).tasks, ∀ t ∈ locals.tasks,
      x.id = t.id → x = t) ∧
    (∀ k, k ∈ remote.tasks.map TaskItem.id →
      k ∈ (mergeData remote locals now).tasks.map TaskItem.id) ∧
    (∀ r ∈ locals.requests, r ∈ (mergeData remote locals now).requests) ∧
    (∀ x ∈ (mergeData remote locals now).requests, ∀ r ∈ locals.requests,
      x.id = r.id → x = r) ∧
    (∀ k, k ∈ remote.requests.map RequestItem.id →
      k ∈ (mergeData remote locals now).requests.map RequestItem.id) := by
  refine ⟨rfl, ?_, ?_, ?_, ?_, ?_, ?_⟩
  · exact fun t ht => mergeArrays_local_mem TaskItem.id remote.tasks
      locals.tasks hlt t ht
  · exact fun x hx t ht hid => mergeArrays_local_wins TaskItem.id
      remote.tasks locals.tasks hlt x hx t ht hid
  · exact fun k hk => mergeArrays_remote_ids TaskItem.id remote.tasks
      locals.tasks k hk
  · exact fun r hr => mergeArrays_local_mem RequestItem.id remote.requests
      locals.requests hlr r hr
  · exact fun x hx r hr hid => mergeArrays_local_wins RequestItem.id
      remote.requests locals.requests hlr x hx r hr hid
  · exact fun k hk => mergeArrays_remote_ids RequestItem.id remote.requests
      locals.requests k hk

/-- Witness for C6: remote task id 1 unedited and local task id 1 edited —
the merge keeps the local version and preserves the remote-only id 2. -/
theorem C6_witness :
    ((mergeData ⟨"1.0.0", 0, [], [⟨1, "T"⟩, ⟨2, "U"⟩], [⟨7, "R"⟩], []⟩
        ⟨"1.0.0", 0, [], [⟨1, "T edited"⟩], [], []⟩ 9).users = [] ∧
     (⟨1, "T edited"⟩ : TaskItem) ∈
       (mergeData ⟨"1.0.0", 0, [], [⟨1, "T"⟩, ⟨2, "U"⟩], [⟨7, "R"⟩], []⟩
         ⟨"1.0.0", 0, [], [⟨1, "T edited"⟩], [], []⟩ 9).tasks ∧
     2 ∈ (mergeData ⟨"1.0.0", 0, [], [⟨1, "T"⟩, ⟨2, "U"⟩], [⟨7, "R"⟩], []⟩
       ⟨"1.0.0", 0, [], [⟨1, "T edited"⟩], [], []⟩ 9).tasks.map
         TaskItem.id) := by
  have h := C6_merge_by_id ⟨"1.0.0", 0, [], [⟨1, "T"⟩, ⟨2, "U"⟩], [⟨7, "R"⟩], []⟩
    ⟨"1.0.0", 0, [], [⟨1, "T edited"⟩], [], []⟩ 9
    (by decide) (by decide) (by decide) (by decide)
  exact ⟨h.1, h.2.1 _ (by decide), h.2.2.2.1 2 (by decide)⟩

/-- C9: an unconfigured client (no token, hence never connected) with no
local snapshot gets the seed document from `fetchData`, and the engine
stays disconnected. -/
theorem C9_unconfigured_load (now att : Nat) (sha : Option String)
    (q : List QueueItem) (ws : Nat → WriteOutcome) (ro : ReadOutcome)
    (le : Option String) (cs : String) :
    (fetchData ⟨false, false, sha, none, q, ws, ro, att, now, le, cs⟩).1 =
      ⟨"1.0.0", now,
        [⟨1, "Liam", "Tech Lead"⟩, ⟨2, "Trân", "Sales Lead"⟩,
         ⟨3, "Taddy", "CEO"⟩, ⟨4, "Hiếu", "Software Lead"⟩,
         ⟨5, "Vỹ", "UX Lead"⟩, ⟨6, "Intern Thân", "Tech Intern"⟩,
         ⟨7, "Intern Trân", "Tech Intern"⟩], [], [], []⟩ ∧
    (fetchData ⟨false, false, sha, none, q, ws, ro, att, now, le, cs⟩).2 =
      ⟨false, false, sha, none, q, ws, ro, att, now, le, cs⟩ :=
  ⟨rfl, rfl⟩

/-! ## Error-path behaviour of `commitData` (claims C2, C3, C4, C7) -/

theorem strIncludes_go_append (n pre suf : List Char) :
    strIncludes.go n (pre ++ (n ++ suf)) = true := by
  induction pre with
  | nil =>
    cases h : n ++ suf with
    | nil =>
      have hn : n = [] := by
        cases n with
        | nil => rfl
        | cons c t => simp at h
      simp [strIncludes.go, hn]
    | cons c t =>
      simp only [List.nil_append, h, strIncludes.go, Bool.or_eq_true]
      exact Or.inl ( List.isPrefixOf_iff_prefix.mpr ⟨suf, h⟩)
  | cons c pre ih =>
    simp only [List.cons_append, strIncludes.go, Bool.or_eq_true]
    exact Or.inr ih

/-- Any text of the form `pre ++ needle ++ suf` contains `needle`. -/
theorem strIncludes_of_parts (pre needle suf : String) :
    strIncludes (pre ++ (needle ++ suf)) needle = true := by
  unfold strIncludes
  rw [String.data_append, String.data_append]
  exact strIncludes_go_append needle.data pre.data suf.data

/-- The message of a 401 commit failure contains the substring `401`. -/
theorem strIncludes_commit401 (m : String) :
    strIncludes (commitErrorMessage 401 m) "401" = true := by
  have h : commitErrorMessage 401 m =
      "GitHub commit failed: " ++ ("401" ++ (" " ++ m)) := by
    unfold commitErrorMessage
    have : toString (401 : Nat) = "401" := rfl
    rw [this, String.append_assoc, String.append_assoc]
  rw [h]
  exact strIncludes_of_parts "GitHub commit failed: " "401" (" " ++ m)

/-- C4, amended: a 401 write failure flips `isConnected` off, sets the
error status, surfaces the reconfigure toast, and — contrary to the
claim — still enqueues the operation (with the refreshed timestamp)
besides persisting it locally; the result is the `queued` tag. -/
theorem C4_auth_error_flips_and_enqueues (data : DataDoc)
    (msg apiMsg : String) (sha : Option String) (ld : Option DataDoc)
    (q : List QueueItem) (ws : Nat → WriteOutcome) (ro : ReadOutcome)
    (att now fuel : Nat) (le : Option String) (cs : String)
    (hws : ws att = .httpError 401 apiMsg) :
    commitData (fuel + 1) data msg
        ⟨true, true, sha, ld, q, ws, ro, att, now, le, cs⟩ =
      (.queued,
        ⟨true, false, sha, some { data with lastUpdated := now },
         q ++ [⟨"update", { data with lastUpdated := now }, msg, now⟩],
         ws, ro, att + 1, now,
         some "Invalid GitHub token. Please reconfigure in Settings.",
         "error"⟩) := by
  simp only [commitData, Bool.not_true, Bool.or_self, Bool.false_eq_true,
    if_false, hws]
  simp [handleError, errorToast, addToSyncQueue, saveLocalData,
    strIncludes_commit401]

/-- Witness for C4 at a concrete input. -/
theorem C4_witness :
    commitData 1 ⟨"1.0.0", 0, [], [], [], []⟩ "save"
        ⟨true, true, none, none, [],
         (fun _ => .httpError 401 "Bad credentials"), .notFound, 0, 7,
         none, "connected"⟩ =
      (.queued,
        ⟨true, false, none, some ⟨"1.0.0", 7, [], [], [], []⟩,
         [⟨"update", ⟨"1.0.0", 7, [], [], [], []⟩, "save", 7⟩],
         (fun _ => .httpError 401 "Bad credentials"), .notFound, 1, 7,
         some "Invalid GitHub token. Please reconfigure in Settings.",
         "error"⟩) :=
  C4_auth_error_flips_and_enqueues ⟨"1.0.0", 0, [], [], [], []⟩ "save"
    "Bad credentials" none none [] (fun _ => .httpError 401 "Bad credentials")
    .notFound 0 7 0 none "connected" rfl

/-- C4, counterexample to "does not enqueue": a 401 failure grows the
pending queue from empty to length 1. -/
theorem C4_counterexample :
    ((commitData 1 ⟨"1.0.0", 0, [], [], [], []⟩ "save"
        ⟨true, true, none, none, [],
         (fun _ => .httpError 401 "Bad credentials"), .notFound, 0, 7,
         none, "connected"⟩).2.syncQueue).length = 1 := by
  decide

/-- C3, amended: `commitData` always returns a result tag (it is total in
this model) and always persists a document to the local store, but the
stored document is the caller's own only off the conflict path: when
disconnected it stores the document as passed, on a successful or
plainly-failing write it stores it with `lastUpdated` refreshed, while
after a conflict it stores the merged document (and, on the recursive
error path, enqueues the merged document) instead of the caller's. -/
theorem C3_commit_always_persists (data remote : DataDoc)
    (msg m : String) (sha : Option String) (ld : Option DataDoc)
    (q : List QueueItem) (ws : Nat → WriteOutcome) (ro : ReadOutcome)
    (att now fuel st : Nat) (le : Option String) (cs : String)
    (wsha rsha : String) :
    (commitData (fuel + 1) data msg
        ⟨true, false, sha, ld, q, ws, ro, att, now, le, cs⟩ =
      (.queued,
        ⟨true, false, sha, some data, q ++ [⟨"update", data, msg, now⟩],
         ws, ro, att, now, le, cs⟩)) ∧
    (commitData (fuel + 1) data msg
        ⟨true, true, sha, ld, q, (fun _ => .ok wsha), ro, 0, now, le, cs⟩ =
      (.success,
        ⟨true, true, some wsha, some { data with lastUpdated := now }, q,
         (fun _ => .ok wsha), ro, 1, now, le, cs⟩)) ∧
    ((commitData (fuel + 1) data msg
        ⟨true, true, sha, ld, q, (fun _ => .httpError st m), ro, 0, now, le,
         cs⟩).1 = .queued ∧
     (commitData (fuel + 1) data msg
        ⟨true, true, sha, ld, q, (fun _ => .httpError st m), ro, 0, now, le,
         cs⟩).2.localData = some { data with lastUpdated := now } ∧
     (commitData (fuel + 1) data msg
        ⟨true, true, sha, ld, q, (fun _ => .httpError st m), ro, 0, now, le,
         cs⟩).2.syncQueue =
       q ++ [⟨"update", { data with lastUpdated := now }, msg, now⟩]) ∧
    ((commitData (fuel + 1 + 1) data msg
        ⟨true, true, sha, ld, q, (fun n => if n = 0 then .conflict else .ok wsha),
         .ok remote rsha, 0, now, le, cs⟩).1 = .success ∧
     (commitData (fuel + 1 + 1) data msg
        ⟨true, true, sha, ld, q, (fun n => if n = 0 then .conflict else .ok wsha),
         .ok remote rsha, 0, now, le, cs⟩).2.localData =
       some (mergeData remote { data with lastUpdated := now } now)) := by
  refine ⟨?_, ?_, ?_, ?_⟩
  · simp [commitData, addToSyncQueue, saveLocalData]
  · simp [commitData, saveLocalData]
  · simp [commitData, addToSyncQueue, saveLocalData, handleError]
  · simp [commitData, fetchData, saveLocalData, mergeData]

/-- C3, counterexample to "the local store holds the caller's document
afterward": on the conflict path the store ends up holding the merged
document, which differs from the caller's document (with or without the
`lastUpdated` refresh). -/
theorem C3_counterexample :
    ((commitData 2 ⟨"1.0.0", 7, [⟨1, "A", "r"⟩], [⟨1, "local task"⟩], [], []⟩
        "save"
        ⟨true, true, some "s0", none, [],
         (fun n => if n = 0 then .conflict else .ok "s2"),
         .ok ⟨"1.0.0", 3, [], [⟨2, "remote task"⟩], [], []⟩ "s1", 0, 7,
         none, "connected"⟩).1 = .success ∧
     (commitData 2 ⟨"1.0.0", 7, [⟨1, "A", "r"⟩], [⟨1, "local task"⟩], [], []⟩
        "save"
        ⟨true, true, some "s0", none, [],
         (fun n => if n = 0 then .conflict else .ok "s2"),
         .ok ⟨"1.0.0", 3, [], [⟨2, "remote task"⟩], [], []⟩ "s1", 0, 7,
         none, "connected"⟩).2.localData ≠
       some ⟨"1.0.0", 7, [⟨1, "A", "r"⟩], [⟨1, "local task"⟩], [], []⟩) := by
  constructor
  · decide
  · intro h
    have := congrArg (fun o => o.map DataDoc.users) h
    revert this
    decide

/-- C2, amended: on a `ConflictError` the engine merges and retries with
the amended message, and on every further conflict it merges and retries
again without any single-retry bound; when a retry fails with a
non-conflict error it persists and enqueues the merged document (with the
amended message), not the original, and returns `queued`. -/
theorem C2_conflict_merge_retry_behaviour (data remote : DataDoc)
    (msg m : String) (sha : Option String) (ld : Option DataDoc)
    (q : List QueueItem) (st now fuel : Nat) (le : Option String)
    (cs : String) (wsha rsha : String) :
    ((commitData (fuel + 1 + 1 + 1) data msg
        ⟨true, true, sha, ld, q,
         (fun n => if n = 0 then .conflict
                   else if n = 1 then .conflict else .ok wsha),
         .ok remote rsha, 0, now, le, cs⟩).1 = .success ∧
     (commitData (fuel + 1 + 1 + 1) data msg
        ⟨true, true, sha, ld, q,
         (fun n => if n = 0 then .conflict
                   else if n = 1 then .conflict else .ok wsha),
         .ok remote rsha, 0, now, le, cs⟩).2.attempts = 3 ∧
     (commitData (fuel + 1 + 1 + 1) data msg
        ⟨true, true, sha, ld, q,
         (fun n => if n = 0 then .conflict
                   else if n = 1 then .conflict else .ok wsha),
         .ok remote rsha, 0, now, le, cs⟩).2.localData =
       some (mergeData remote
         (mergeData remote { data with lastUpdated := now } now) now)) ∧
    ((commitData (fuel + 1 + 1) data msg
        ⟨true, true, sha, ld, q,
         (fun n => if n = 0 then .conflict else .httpError st m),
         .ok remote rsha, 0, now, le, cs⟩).1 = .queued ∧
     (commitData (fuel + 1 + 1) data msg
        ⟨true, true, sha, ld, q,
         (fun n => if n = 0 then .conflict else .httpError st m),
         .ok remote rsha, 0, now, le, cs⟩).2.syncQueue =
       q ++ [⟨"update", mergeData remote { data with lastUpdated := now } now,
              msg ++ " (merged)", now⟩] ∧
     (commitData (fuel + 1 + 1) data msg
        ⟨true, true, sha, ld, q,
         (fun n => if n = 0 then .conflict else .httpError st m),
         .ok remote rsha, 0, now, le, cs⟩).2.localData =
       some (mergeData remote { data with lastUpdated := now } now)) := by
  refine ⟨?_, ?_⟩
  · simp [commitData, fetchData, saveLocalData, mergeData]
  · simp [commitData, fetchData, saveLocalData, addToSyncQueue,
      handleError, mergeData]

/-- C2, counterexample to the single-retry bound: with the write script
conflict, conflict, success, the engine performs a third write attempt
(a second merge-and-retry cycle) and returns `success`, where the claim
mandates giving up after the single retry and returning `queued`. -/
theorem C2_counterexample :
    ((commitData 5 ⟨"1.0.0", 7, [], [⟨1, "local"⟩], [], []⟩ "save"
        ⟨true, true, some "s0", none, [],
         (fun n => if n = 0 then .conflict
                   else if n = 1 then .conflict else .ok "s3"),
         .ok ⟨"1.0.0", 3, [], [⟨2, "remote"⟩], [], []⟩ "s1", 0, 7,
         none, "connected"⟩).1 = .success ∧
     (commitData 5 ⟨"1.0.0", 7, [], [⟨1, "local"⟩], [], []⟩ "save"
        ⟨true, true, some "s0", none, [],
         (fun n => if n = 0 then .conflict
                   else if n = 1 then .conflict else .ok "s3"),
         .ok ⟨"1.0.0", 3, [], [⟨2, "remote"⟩], [], []⟩ "s1", 0, 7,
         none, "connected"⟩).2.attempts = 3) := by
  exact ⟨by decide, by decide⟩

/-- C7, amended: `processSyncQueue` is strictly FIFO and stops at the
first failing operation, but a failing operation is re-enqueued at the
tail by `commitData`'s error path, so for 3 queued operations whose 2nd
fails the result is processed = 1, failed = 1, and the queue afterwards
is the failing operation, the untouched later one, and a timestamp-
refreshed duplicate of the failing operation — length 3, not 2. -/
theorem C7_flush_fifo_with_requeue (A B C : QueueItem) (st : Nat)
    (m wsha : String) (ld : Option DataDoc) (sha0 : Option String)
    (ro : ReadOutcome) (now cfuel loopFuel : Nat) (le : Option String)
    (cs : String) :
    (processSyncQueue (cfuel + 1) (loopFuel + 1 + 1)
        ⟨true, true, sha0, ld, [A, B, C],
         (fun n => if n = 0 then .ok wsha else .httpError st m),
         ro, 0, now, le, cs⟩).1 = 1 ∧
    (processSyncQueue (cfuel + 1) (loopFuel + 1 + 1)
        ⟨true, true, sha0, ld, [A, B, C],
         (fun n => if n = 0 then .ok wsha else .httpError st m),
         ro, 0, now, le, cs⟩).2.1 = 1 ∧
    (processSyncQueue (cfuel + 1) (loopFuel + 1 + 1)
        ⟨true, true, sha0, ld, [A, B, C],
         (fun n => if n = 0 then .ok wsha else .httpError st m),
         ro, 0, now, le, cs⟩).2.2.syncQueue =
      [B, C, ⟨"update", { B.data with lastUpdated := now }, B.message, now⟩] := by
  refine ⟨?_, ?_, ?_⟩ <;>
    simp [processSyncQueue, processQueueLoop, commitData, saveLocalData,
      addToSyncQueue, handleError]

/-- C7, counterexample to "remaining = 2": with 3 queued operations whose
2nd fails, the failing operation is duplicated to the tail, so the queue
afterwards has length 3 (processed = 1, failed = 1). -/
theorem C7_counterexample :
    ((processSyncQueue 1 5
        ⟨true, true, some "s0", none,
         [⟨"update", ⟨"1.0.0", 1, [], [], [], []⟩, "op A", 1⟩,
          ⟨"update", ⟨"1.0.0", 2, [], [], [], []⟩, "op B", 2⟩,
          ⟨"update", ⟨"1.0.0", 3, [], [], [], []⟩, "op C", 3⟩],
         (fun n => if n = 0 then .ok "s1" else .httpError 500 "boom"),
         .notFound, 0, 7, none, "connected"⟩).1 = 1 ∧
     (processSyncQueue 1 5
        ⟨true, true, some "s0", none,
         [⟨"update", ⟨"1.0.0", 1, [], [], [], []⟩, "op A", 1⟩,
          ⟨"update", ⟨"1.0.0", 2, [], [], [], []⟩, "op B", 2⟩,
          ⟨"update", ⟨"1.0.0", 3, [], [], [], []⟩, "op C", 3⟩],
         (fun n => if n = 0 then .ok "s1" else .httpError 500 "boom"),
         .notFound, 0, 7, none, "connected"⟩).2.1 = 1 ∧
     (processSyncQueue 1 5
        ⟨true, true, some "s0", none,
         [⟨"update", ⟨"1.0.0", 1, [], [], [], []⟩, "op A", 1⟩,
          ⟨"update", ⟨"1.0.0", 2, [], [], [], []⟩, "op B", 2⟩,
          ⟨"update", ⟨"1.0.0", 3, [], [], [], []⟩, "op C", 3⟩],
         (fun n => if n = 0 then .ok "s1" else .httpError 500 "boom"),
         .notFound, 0, 7, none, "connected"⟩).2.2.syncQueue.length = 3) := by
  exact ⟨by decide, by decide, by decide⟩

/-! ## Codec round trip (claims C8, C10) -/

theorem decSextet_encSextet : ∀ n, n < 64 → decSextet (encSextet n) = some n := by
  decide

theorem pad_not_mem_alphabet : '=' ∉ b64Alphabet := by decide

theorem underscore_not_mem_alphabet : '_' ∉ b64Alphabet := by decide

theorem encSextet_mem (n : Nat) : encSextet n ∈ b64Alphabet := by
  unfold encSextet
  rw [List.getD_eq_getElem?_getD]
  cases h : b64Alphabet[n]? with
  | some c =>
    simp only [h, Option.getD_some]
    exact List.getElem?_mem h
  | none => simp only [h, Option.getD_none]; decide

theorem encSextet_ne_pad (n : Nat) : encSextet n ≠ '=' := by
  intro h
  have hm := encSextet_mem n
  rw [h] at hm
  exact pad_not_mem_alphabet hm

/-- Composing `atob` after `btoa` is the identity on byte sequences. -/
theorem b64_roundtrip : ∀ (l : List Nat), (∀ x ∈ l, x < 256) →
    b64Decode (b64Encode l) = some l
  | [], _ => by simp [b64Encode, b64Decode]
  | [a], h => by
    have ha : a < 256 := h a (by simp)
    have h1 := decSextet_encSextet (a / 4) (by omega)
    have h2 := decSextet_encSextet (a % 4 * 16) (by omega)
    simp only [b64Encode, b64Decode, h1, h2]
    simp only [and_self, if_true, reduceIte, Option.some.injEq]
    have he : a / 4 * 4 + a % 4 * 16 / 16 = a := by omega
    rw [he]
  | [a, b], h => by
    have ha : a < 256 := h a (by simp)
    have hb : b < 256 := h b (by simp)
    have h1 := decSextet_encSextet (a / 4) (by omega)
    have h2 := decSextet_encSextet (a % 4 * 16 + b / 16) (by omega)
    have h3 := decSextet_encSextet (b % 16 * 4) (by omega)
    simp only [b64Encode, b64Decode, h1, h2, h3]
    rw [if_neg (fun hx => encSextet_ne_pad (b % 16 * 4) hx.1)]
    simp only [and_self, if_true, reduceIte, Option.some.injEq]
    have e1 : a / 4 * 4 + (a % 4 * 16 + b / 16) / 16 = a := by omega
    have e2 : (a % 4 * 16 + b / 16) % 16 * 16 + b % 16 * 4 / 4 = b := by omega
    rw [e1, e2]
  | a :: b :: c :: rest, h => by
    have ha : a < 256 := h a (by simp)
    have hb : b < 256 := h b (by simp)
    have hc : c < 256 := h c (by simp)
    have h1 := decSextet_encSextet (a / 4) (by omega)
    have h2 := decSextet_encSextet (a % 4 * 16 + b / 16) (by omega)
    have h3 := decSextet_encSextet (b % 16 * 4 + c / 64) (by omega)
    have h4 := decSextet_encSextet (c % 64) (by omega)
    have ih := b64_roundtrip rest (fun x hx => h x (by simp [hx]))
    simp only [b64Encode, b64Decode, h1, h2, h3, h4]
    rw [if_neg (fun hx => encSextet_ne_pad (b % 16 * 4 + c / 64) hx.1)]
    rw [if_neg (fun hx => encSextet_ne_pad (c % 64) hx.1)]
    rw [ih]
    have e1 : a / 4 * 4 + (a % 4 * 16 + b / 16) / 16 = a := by omega
    have e2 : (a % 4 * 16 + b / 16) % 16 * 16 + (b % 16 * 4 + c / 64) / 4 = b := by
      omega
    have e3 : (b % 16 * 4 + c / 64) % 4 * 64 + c % 64 = c := by omega
    simp only [Option.map_some, Option.some.injEq, e1, e2, e3]
    rfl

/-- Decoding the UTF-8 bytes of a valid scalar yields that scalar and the
remaining input. -/
theorem utf8Step_encode (c : Nat) (tl : List Nat) (h1 : c < 0x110000)
    (h2 : ¬(0xD800 ≤ c ∧ c ≤ 0xDFFF)) :
    utf8Step (utf8EncodeCp c ++ tl) = some (c, tl) := by
  unfold utf8EncodeCp utf8Step
  by_cases hA : c < 0x80
  · rw [if_pos hA]
    simp only [List.cons_append, List.nil_append]
    rw [if_pos hA]
  · rw [if_neg hA]
    by_cases hB : c < 0x800
    · rw [if_pos hB]
      simp only [List.cons_append, List.nil_append]
      rw [if_neg (by omega), if_pos (by omega)]
      rw [if_pos ⟨by omega, by omega, by omega, by omega⟩]
      have he : (0xC0 + c / 64 - 0xC0) * 64 + (0x80 + c % 64 - 0x80) = c := by
        omega
      rw [he]
    · rw [if_neg hB]
      by_cases hC : c < 0x10000
      · rw [if_pos hC]
        simp only [List.cons_append, List.nil_append]
        rw [if_neg (by omega), if_neg (by omega), if_pos (by omega)]
        rw [if_pos ⟨by omega, by omega, by omega, by omega, by omega, by omega⟩]
        have he : (0xE0 + c / 4096 - 0xE0) * 4096 +
            (0x80 + c / 64 % 64 - 0x80) * 64 + (0x80 + c % 64 - 0x80) = c := by
          omega
        rw [he]
      · rw [if_neg hC]
        simp only [List.cons_append, List.nil_append]
        rw [if_neg (by omega), if_neg (by omega), if_neg (by omega),
          if_pos (by omega)]
        rw [if_pos ⟨by omega, by omega, by omega, by omega, by omega, by omega,
          by omega, by omega⟩]
        have he : (0xF0 + c / 262144 - 0xF0) * 262144 +
            (0x80 + c / 4096 % 64 - 0x80) * 4096 +
            (0x80 + c / 64 % 64 - 0x80) * 64 + (0x80 + c % 64 - 0x80) = c := by
          omega
        rw [he]

theorem utf8EncodeCp_ne_nil (c : Nat) : utf8EncodeCp c ≠ [] := by
  unfold utf8EncodeCp
  split
  · simp
  · split
    · simp
    · split
      · simp
      · simp

theorem utf8DecodeLoop_encodeChars (s : List Char) : ∀ fuel,
    (utf8EncodeChars s).length ≤ fuel →
    utf8DecodeLoop fuel (utf8EncodeChars s) = some (s.map Char.toNat) := by
  induction s with
  | nil =>
    intro fuel _
    cases fuel <;> rfl
  | cons c t ih =>
    intro fuel hfuel
    have hv : c.toNat < 0xd800 ∨ (0xdfff < c.toNat ∧ c.toNat < 0x110000) :=
      c.valid
    have h1 : c.toNat < 0x110000 := by omega
    have h2 : ¬(0xD800 ≤ c.toNat ∧ c.toNat ≤ 0xDFFF) := by omega
    have henc : utf8EncodeChars (c :: t) =
        utf8EncodeCp c.toNat ++ utf8EncodeChars t := by
      simp [utf8EncodeChars]
    have hlen1 : 1 ≤ (utf8EncodeCp c.toNat).length := by
      cases he : utf8EncodeCp c.toNat with
      | nil => exact absurd he (utf8EncodeCp_ne_nil c.toNat)
      | cons b bs => simp
    rw [henc] at hfuel ⊢
    rw [List.length_append] at hfuel
    cases fuel with
    | zero => omega
    | succ f =>
      cases he : utf8EncodeCp c.toNat with
      | nil => exact absurd he (utf8EncodeCp_ne_nil c.toNat)
      | cons b bs =>
        have hstep := utf8Step_encode c.toNat (utf8EncodeChars t) h1 h2
        rw [he] at hstep
        rw [List.cons_append]
        simp only [utf8DecodeLoop]
        rw [← List.cons_append, hstep]
        have hle : (utf8EncodeChars t).length ≤ f := by
          rw [he] at hlen1 hfuel
          simp at hlen1 hfuel
          omega
        dsimp only
        rw [ih f hle]
        rfl

theorem utf8EncodeCp_bytes_lt (c : Nat) (hc : c < 0x110000) :
    ∀ x ∈ utf8EncodeCp c, x < 256 := by
  intro x hx
  unfold utf8EncodeCp at hx
  split at hx
  · simp at hx; omega
  · split at hx
    · simp at hx; rcases hx with h | h <;> omega
    · split at hx
      · simp at hx; rcases hx with h | h | h <;> omega
      · simp at hx; rcases hx with h | h | h | h <;> omega

theorem utf8EncodeChars_bytes_lt (s : List Char) :
    ∀ x ∈ utf8EncodeChars s, x < 256 := by
  intro x hx
  simp only [utf8EncodeChars, List.mem_flatMap] at hx
  obtain ⟨c, _, hxc⟩ := hx
  have hv : c.toNat < 0xd800 ∨ (0xdfff < c.toNat ∧ c.toNat < 0x110000) :=
    c.valid
  exact utf8EncodeCp_bytes_lt c.toNat (by omega) x hxc

theorem map_ofNat_toNat (l : List Char) :
    (l.map Char.toNat).map Char.ofNat = l := by
  rw [List.map_map]
  have h : l.map (Char.ofNat ∘ Char.toNat) = l.map id := by
    refine List.map_congr_left fun c _ => ?_
    simp [Function.comp, Char.ofNat_toNat]
  rw [h, List.map_id]

/-- C8: the codec round-trips exactly on every string, multi-byte Unicode
included: `base64ToUtf8 (utf8ToBase64 s) = s`. -/
theorem C8_codec_roundtrip (s : String) :
    base64ToUtf8 (utf8ToBase64 s) = some s := by
  unfold base64ToUtf8 utf8ToBase64
  rw [b64_roundtrip (utf8EncodeChars s.data) (utf8EncodeChars_bytes_lt s.data)]
  show (utf8DecodeCps (utf8EncodeChars s.data)).map _ = some s
  unfold utf8DecodeCps
  rw [utf8DecodeLoop_encodeChars s.data _ (le_refl _)]
  show some (String.mk ((s.data.map Char.toNat).map Char.ofNat)) = some s
  rw [map_ofNat_toNat]

theorem b64Encode_ne_nil : ∀ (l : List Nat), l ≠ [] → b64Encode l ≠ []
  | [], h => absurd rfl h
  | [a], _ => by simp [b64Encode]
  | [a, b], _ => by simp [b64Encode]
  | a :: b :: c :: rest, _ => by simp [b64Encode]

/-- Every character `btoa` emits is in the base64 alphabet or is `=`. -/
theorem b64Encode_chars : ∀ (l : List Nat), ∀ ch ∈ b64Encode l,
    ch ∈ b64Alphabet ∨ ch = '='
  | [], ch, h => by simp [b64Encode] at h
  | [a], ch, h => by
    simp only [b64Encode, List.mem_cons, List.not_mem_nil, or_false] at h
    rcases h with h | h | h | h
    · exact Or.inl (h ▸ encSextet_mem _)
    · exact Or.inl (h ▸ encSextet_mem _)
    · exact Or.inr h
    · exact Or.inr h
  | [a, b], ch, h => by
    simp only [b64Encode, List.mem_cons, List.not_mem_nil, or_false] at h
    rcases h with h | h | h | h
    · exact Or.inl (h ▸ encSextet_mem _)
    · exact Or.inl (h ▸ encSextet_mem _)
    · exact Or.inl (h ▸ encSextet_mem _)
    · exact Or.inr h
  | a :: b :: c :: rest, ch, h => by
    simp only [b64Encode, List.mem_cons] at h
    rcases h with h | h | h | h | h
    · exact Or.inl (h ▸ encSextet_mem _)
    · exact Or.inl (h ▸ encSextet_mem _)
    · exact Or.inl (h ▸ encSextet_mem _)
    · exact Or.inl (h ▸ encSextet_mem _)
    · exact b64Encode_chars rest ch h

/-- No prefix containing an underscore matches `btoa` output: the base64
alphabet has no underscore. -/
theorem underscore_never_starts_b64 (l : List Nat) (p : List Char)
    (hu : '_' ∈ p) : p.isPrefixOf (b64Encode l) = false := by
  by_contra h
  have hpre : p <+: b64Encode l :=
    List.isPrefixOf_iff_prefix.mp (by simpa using h)
  have hmem : '_' ∈ b64Encode l := hpre.subset hu
  rcases b64Encode_chars l '_' hmem with h' | h'
  · exact underscore_not_mem_alphabet h'
  · exact absurd h' (by decide)

/-- C10: a non-empty token within `btoa`'s domain (all code units < 256)
round-trips through `saveConfig`'s obfuscation and `getToken`: the stored
value is `btoa(token)`, it can never start with `ghp_` or `github_pat_`
(the base64 alphabet has no underscore), so `getToken` `atob`s it back to
exactly the original token. -/
theorem C10_token_obfuscation_roundtrip (t : List Char) (h1 : t ≠ [])
    (h2 : ∀ c ∈ t, c.toNat < 256) :
    (saveConfigToken t).bind getToken = some t := by
  unfold saveConfigToken
  rw [if_neg (by simp [h1])]
  rw [if_pos (by rw [List.all_eq_true]; intro c hc; simpa using h2 c hc)]
  show getToken (b64Encode (t.map Char.toNat)) = some t
  unfold getToken
  have hmapne : t.map Char.toNat ≠ [] := by
    cases t with
    | nil => exact absurd rfl h1
    | cons c u => simp
  have hne : b64Encode (t.map Char.toNat) ≠ [] :=
    b64Encode_ne_nil _ hmapne
  rw [if_neg (by simp [List.isEmpty_iff, hne])]
  rw [if_neg (by
    rw [underscore_never_starts_b64 _ _ (by decide),
      underscore_never_starts_b64 _ _ (by decide)]
    simp)]
  rw [b64_roundtrip (t.map Char.toNat)
    (fun x hx => by
      obtain ⟨c, hc, hcx⟩ := List.mem_map.mp hx
      exact hcx ▸ h2 c hc)]
  show some ((t.map Char.toNat).map Char.ofNat) = some t
  rw [map_ofNat_toNat]

/-- Witness for C10 at a concrete token. -/
theorem C10_witness :
    (saveConfigToken "ghp_ExampleToken123".data).bind getToken =
      some "ghp_ExampleToken123".data :=
  C10_token_obfuscation_roundtrip "ghp_ExampleToken123".data (by decide)
    (by decide)

end OpTracker
